import Mathlib

/-!
# Travel list: canonical list, displayed list and statistics

A shallow embedding of `src/components/App.js`.

* JavaScript strings are Lean strings (sequences of code points; for well-formed strings a
  substring of code points is a substring of UTF-16 code units). The two host string
  operations whose result depends on the Unicode tables of the engine (`toLowerCase`,
  `localeCompare`) are fields of `Host`, so every general theorem holds for any engine.
  `asciiHost` is a concrete host used in examples.
* Arrays are lists. `Array.prototype.sort` is stable (ECMAScript 2019); `sortWith` is the stable
  insertion sort.
* `Number` values that are integers are `Nat`/`Int`. The only non-integer arithmetic,
  `(packedItems / totalItems) * 100` in `Stats`, is IEEE-754 binary64 with round-to-nearest,
  ties-to-even; `Double` carries the exact value of a finite non-negative double as a fraction.
* React state is the record `AppState`; a handler is a function on it, followed by the effect
  whenever one of its dependencies `[sortBy, items]` has changed.
-/

namespace TravelList

/-! ## Host string operations -/

/-- The engine-dependent string operations used by the program. -/
structure Host where
  /-- Method `String.prototype.toLowerCase` -/
  toLowerCase : String → String
  /-- Method `String.prototype.localeCompare`: negative, zero or positive -/
  localeCompare : String → String → Int

/-- Lexicographic comparison of code points, as -1, 0 or 1. -/
def compareChars : List Char → List Char → Int
  | [], [] => 0
  | [], _ :: _ => -1
  | _ :: _, [] => 1
  | a :: as, b :: bs =>
    if a.toNat < b.toNat then -1 else if b.toNat < a.toNat then 1 else compareChars as bs

/-- A concrete host: ASCII lower-casing and code point order. -/
def asciiHost : Host where
  toLowerCase := fun s => String.mk (s.data.map Char.toLower)
  localeCompare := fun a b => compareChars a.data b.data

/-- Method `String.prototype.includes` on code points: `t` occurs in `s` as a contiguous substring. -/
def includesChars : List Char → List Char → Bool
  | [], t => t.isEmpty
  | c :: cs, t => t.isPrefixOf (c :: cs) || includesChars cs t

/-- Call `s.includes(t)` -/
def includes (s t : String) : Bool := includesChars s.data t.data

/-- ECMAScript `WhiteSpace` and `LineTerminator` code points, the ones `trim` strips. -/
def isWhiteSpace (c : Char) : Bool :=
  let n := c.toNat
  n = 0x09 || n = 0x0A || n = 0x0B || n = 0x0C || n = 0x0D || n = 0x20 || n = 0xA0 ||
  n = 0x1680 || (0x2000 ≤ n && n ≤ 0x200A) || n = 0x2028 || n = 0x2029 || n = 0x202F ||
  n = 0x205F || n = 0x3000 || n = 0xFEFF

/-- Method `String.prototype.trim` -/
def trim (s : String) : String :=
  String.mk ((s.data.dropWhile isWhiteSpace).reverse.dropWhile isWhiteSpace).reverse

/-- Truthiness of a string: the empty string is falsy. -/
def truthy (s : String) : Bool := !s.data.isEmpty

/-! ## Stable sorting -/

/-- Insert `a` in front of the first element it does not compare greater than. -/
def insertSorted {α : Type} (cmp : α → α → Int) (a : α) : List α → List α
  | [] => [a]
  | b :: l => if cmp a b ≤ 0 then a :: b :: l else b :: insertSorted cmp a l

/-- Method `Array.prototype.sort(cmp)` on a copy: stable sort by the comparator. -/
def sortWith {α : Type} (cmp : α → α → Int) : List α → List α
  | [] => []
  | a :: l => insertSorted cmp a (sortWith cmp l)

/-! ## Data model -/

/-- An item of the list, as built in `Form.handleSubmit`. -/
structure Item where
  id : Int
  description : String
  quantity : Nat
  packed : Bool
deriving DecidableEq, Repr

/-- The state of `App`: three `useState` cells. -/
structure AppState where
  items : List Item
  filteredItems : List Item
  sortBy : String
deriving DecidableEq, Repr

/-- The state at mount. -/
def AppState.init : AppState := ⟨[], [], "inputOrder"⟩

/-- A boolean as a number, as in `a.packed - b.packed`. -/
def boolToNumber (b : Bool) : Int := if b then 1 else 0

/-- The body of the sorting effect: a copy of `items`, sorted as `sortBy` says. -/
def App.sortedItems (H : Host) (sortBy : String) (items : List Item) : List Item :=
  if sortBy = "description" then
    sortWith (fun a b => H.localeCompare a.description b.description) items
  else if sortBy = "packedStatus" then
    sortWith (fun a b => boolToNumber a.packed - boolToNumber b.packed) items
  else if sortBy = "alphabetical" then
    sortWith (fun a b => H.localeCompare a.description b.description) items
  else items

/-- The sorting effect: `setFilteredItems(sortedItems)`. -/
def App.sortingEffect (H : Host) (s : AppState) : AppState :=
  { s with filteredItems := App.sortedItems H s.sortBy s.items }

/-- Handler `handleAddItem`: the updater appends and stores the new array in both cells; `items` is a
new array, so the effect runs after the render. -/
def App.handleAddItem (H : Host) (s : AppState) (newItem : Item) : AppState :=
  let updatedItems := s.items ++ [newItem]
  App.sortingEffect H { s with items := updatedItems, filteredItems := updatedItems }

/-- Handler `handleTogglePacked`: maps over `items`; the effect runs on the new array. -/
def App.handleTogglePacked (H : Host) (s : AppState) (id : Int) : AppState :=
  let updatedItems := s.items.map (fun item =>
    if item.id = id then { item with packed := !item.packed } else item)
  App.sortingEffect H { s with items := updatedItems, filteredItems := updatedItems }

/-- Handler `handleDeleteItem`: filters `items`; the effect runs on the new array. -/
def App.handleDeleteItem (H : Host) (s : AppState) (id : Int) : AppState :=
  let updatedItems := s.items.filter (fun item => item.id ≠ id)
  App.sortingEffect H { s with items := updatedItems, filteredItems := updatedItems }

/-- The filter of `handleSearch`. -/
def searchItems (H : Host) (items : List Item) (term : String) : List Item :=
  items.filter (fun item => includes (H.toLowerCase item.description) term)

/-- Handler `handleSearch` of `App`: only `filteredItems` is set; no dependency of the effect changes. -/
def App.handleSearch (H : Host) (s : AppState) (term : String) : AppState :=
  { s with filteredItems := searchItems H s.items term }

/-- Handler `handleSearch` of `SearchBar`: lower-cases the input value and calls `onSearch`. -/
def SearchBar.handleSearch (H : Host) (s : AppState) (value : String) : AppState :=
  App.handleSearch H s (H.toLowerCase value)

/-- Handler `handleClearAll`: `items` is a new (empty) array, so the effect runs. -/
def App.handleClearAll (H : Host) (s : AppState) : AppState :=
  App.sortingEffect H { s with items := [], filteredItems := [] }

/-- Handler `handleSortChange`: `setSortBy(value)`; the effect runs when `sortBy` has changed. -/
def App.handleSortChange (H : Host) (s : AppState) (value : String) : AppState :=
  if value = s.sortBy then s else App.sortingEffect H { s with sortBy := value }

/-- Handler `Form.handleSubmit` with the form's `description` and `quantity` and the clock value
`now` returned by `Date.now()`. -/
def Form.handleSubmit (H : Host) (s : AppState) (description : String) (quantity : Nat)
    (now : Int) : AppState :=
  if !truthy (trim description) then s
  else
    let newItem : Item := ⟨now, description, quantity, false⟩
    App.handleAddItem H s newItem

/-- A user action. -/
inductive Event where
  | submit (description : String) (quantity : Nat) (now : Int)
  | togglePacked (id : Int)
  | deleteItem (id : Int)
  | clearAll
  | search (value : String)
  | sortChange (value : String)
deriving DecidableEq, Repr

/-- One action applied to the state. -/
def step (H : Host) (s : AppState) : Event → AppState
  | .submit description quantity now => Form.handleSubmit H s description quantity now
  | .togglePacked id => App.handleTogglePacked H s id
  | .deleteItem id => App.handleDeleteItem H s id
  | .clearAll => App.handleClearAll H s
  | .search value => SearchBar.handleSearch H s value
  | .sortChange value => App.handleSortChange H s value

/-- A sequence of actions, applied in order. -/
def run (H : Host) (s : AppState) (events : List Event) : AppState :=
  events.foldl (step H) s

/-- The clock values of the submissions that add an item. -/
def addClocks : List Event → List Int
  | [] => []
  | .submit description _ now :: es =>
    if truthy (trim description) then now :: addClocks es else addClocks es
  | _ :: es => addClocks es

/-- Every submission that adds an item reads a clock value that is not the id of an item in
the canonical list at that moment. -/
def freshSubmits (H : Host) : AppState → List Event → Bool
  | _, [] => true
  | s, e :: es =>
    (match e with
     | .submit description _ now =>
       !truthy (trim description) || !(s.items.map Item.id).contains now
     | _ => true) && freshSubmits H (step H s e) es

/-! ## Binary64 arithmetic -/

/-- A finite non-negative double, by its exact value `num / den`. -/
structure Double where
  num : Nat
  den : Nat
deriving DecidableEq, Repr

/-- Number of binary digits, with fuel. -/
def bitLengthAux : Nat → Nat → Nat
  | 0, _ => 0
  | fuel + 1, n => if n = 0 then 0 else bitLengthAux fuel (n / 2) + 1

/-- Number of binary digits of `n`. -/
def bitLength (n : Nat) : Nat := bitLengthAux n n

/-- The integer nearest to `n / d`, ties to even. -/
def roundHalfEven (n d : Nat) : Nat :=
  let q := n / d
  let r := n % d
  if 2 * r < d then q else if d < 2 * r then q + 1 else if q % 2 = 0 then q else q + 1

/-- The exponent `E` with `2 ^ E ≤ n / d < 2 ^ (E + 1)`, for positive `n` and `d`. -/
def binade (n d : Nat) : Int :=
  let hi : Int := (bitLength n : Int) - (bitLength d : Int)
  if d * 2 ^ hi.toNat ≤ n * 2 ^ (-hi).toNat then hi else hi - 1

/-- The double nearest to `n / d` (53 significant bits, ties to even), for a quotient in the
normal range; the quotients of `Stats` lie between `2 ^ (-32)` and `100`. -/
def toDouble (n d : Nat) : Double :=
  if n = 0 then ⟨0, 1⟩ else
    let e : Int := binade n d - 52
    let m := roundHalfEven (n * 2 ^ (-e).toNat) (d * 2 ^ e.toNat)
    ⟨m * 2 ^ e.toNat, 2 ^ (-e).toNat⟩

/-- The quotient `a / b` of two integers as computed in binary64. -/
def Double.ofDiv (a b : Nat) : Double := toDouble a b

/-- The product `x * k` of a double and an integer as computed in binary64. -/
def Double.mulNat (x : Double) (k : Nat) : Double := toDouble (x.num * k) x.den

/-- Function `Math.round`: the nearest integer, ties towards positive infinity. -/
def Math.round (x : Double) : Nat := (2 * x.num + x.den) / (2 * x.den)

/-! ## Stats -/

/-- Constant `packedItems` of `Stats` -/
def packedItems (items : List Item) : Nat := (items.filter (fun item => item.packed)).length

/-- Constant `totalItems` of `Stats` -/
def totalItems (items : List Item) : Nat := items.length

/-- Expression `Math.round((packed / total) * 100)` guarded by `total === 0`. -/
def percentageOf (packed total : Nat) : Nat :=
  if total = 0 then 0 else Math.round ((Double.ofDiv packed total).mulNat 100)

/-- Constant `percentagePacked` of `Stats` -/
def percentagePacked (items : List Item) : Nat :=
  percentageOf (packedItems items) (totalItems items)

/-- The text rendered by `Stats`. -/
def Stats (items : List Item) : String :=
  if percentagePacked items = 100 then "You got everything!"
  else "You have " ++ toString (totalItems items) ++
    " items in the list. You already packed " ++ toString (packedItems items) ++
    " (" ++ toString (percentagePacked items) ++ "%)."

/-- Half-up rounding of the exact percentage, `floor((200 p + t) / (2 t))`. -/
def exactPercentage (packed total : Nat) : Nat :=
  if total = 0 then 0 else (200 * packed + total) / (2 * total)

/-! ## Examples -/

/-- Scenario 1 of the specification: Socks (2) then Hat (1). -/
def socksHat : AppState :=
  run asciiHost AppState.init [.submit "Socks" 2 1000, .submit "Hat" 1 2000]

/-- Two submissions that read the same clock value. -/
def sameClock : AppState :=
  run asciiHost AppState.init [.submit "Socks" 2 1000, .submit "Hat" 1 1000]

/-- Socks (packed), Shirt, Hat. -/
def threeItems : AppState :=
  run asciiHost AppState.init
    [.submit "Socks" 2 1000, .submit "Shirt" 1 2000, .submit "Hat" 1 3000, .togglePacked 1000]

/-- Forty submissions, then the first twenty-three items toggled. -/
def fortyItems : AppState :=
  run asciiHost AppState.init
    ((List.range 40).map (fun i => Event.submit "item" 1 (1000 + i)) ++
     (List.range 23).map (fun i => Event.togglePacked (1000 + i)))

/-- Two hundred submissions; each item but the last is toggled right after it is added. -/
def twoHundredItems : AppState :=
  run asciiHost AppState.init
    ((List.range 199).flatMap (fun i =>
        [Event.submit "item" 1 (1000 + i), Event.togglePacked (1000 + i)]) ++
     [Event.submit "item" 1 1199])

/-- The list reached by `twoHundredItems`, written out. -/
def twoHundredList : List Item :=
  (List.range 200).map (fun i => ⟨1000 + i, "item", 1, decide (i < 199)⟩)

example : socksHat.items = [⟨1000, "Socks", 2, false⟩, ⟨2000, "Hat", 1, false⟩] := by decide
example : (App.handleSearch asciiHost socksHat "ha").filteredItems = [⟨2000, "Hat", 1, false⟩] := by
  decide
example : (App.handleSortChange asciiHost socksHat "alphabetical").filteredItems =
    [⟨2000, "Hat", 1, false⟩, ⟨1000, "Socks", 2, false⟩] := by decide
example : percentagePacked (App.handleTogglePacked asciiHost socksHat 1000).filteredItems = 50 := by
  decide
example : Stats (App.handleTogglePacked asciiHost socksHat 1000).filteredItems =
    "You have 2 items in the list. You already packed 1 (50%)." := by decide
example : (Form.handleSubmit asciiHost socksHat "   " 1 3000) = socksHat := by decide
example : App.handleClearAll asciiHost socksHat = AppState.init := by decide
example : freshSubmits asciiHost AppState.init
    [.submit "Socks" 2 1000, .clearAll, .submit "Hat" 1 1000] = true := by decide
example : freshSubmits asciiHost AppState.init
    [.submit "Socks" 2 1000, .submit "Hat" 1 1000] = false := by decide
-- 23 / 40 is 0x1.2666666666666p-1 and its product with 100 is 0x1.cbfffffffffffp+5
example : Double.ofDiv 23 40 = ⟨0x12666666666666, 2 ^ 53⟩ := by decide
example : (Double.ofDiv 23 40).mulNat 100 = ⟨0x1cbfffffffffff, 2 ^ 47⟩ := by decide
example : (Double.ofDiv 1 8).mulNat 100 = ⟨25 * 2 ^ 48, 2 ^ 49⟩ := by decide
example : percentageOf 1 8 = 13 := by decide
example : percentageOf 1 3 = 33 := by decide
example : percentageOf 2 3 = 67 := by decide

/-! ## State lemmas -/

@[simp] theorem sortingEffect_items (H : Host) (s : AppState) :
    (App.sortingEffect H s).items = s.items := rfl

@[simp] theorem sortingEffect_sortBy (H : Host) (s : AppState) :
    (App.sortingEffect H s).sortBy = s.sortBy := rfl

@[simp] theorem sortingEffect_filteredItems (H : Host) (s : AppState) :
    (App.sortingEffect H s).filteredItems = App.sortedItems H s.sortBy s.items := rfl

theorem handleSortChange_items (H : Host) (s : AppState) (value : String) :
    (App.handleSortChange H s value).items = s.items := by
  unfold App.handleSortChange
  split <;> rfl

theorem handleSortChange_sortBy (H : Host) (s : AppState) (value : String) :
    (App.handleSortChange H s value).sortBy = value := by
  unfold App.handleSortChange
  split
  · next h => exact h.symm
  · rfl

theorem handleSortChange_filteredItems (H : Host) (s : AppState) (value : String)
    (h : value ≠ s.sortBy) :
    (App.handleSortChange H s value).filteredItems = App.sortedItems H value s.items := by
  unfold App.handleSortChange
  rw [if_neg h]
  rfl

theorem truthy_eq_false_iff (s : String) : truthy s = false ↔ s = "" := by
  cases s with
  | mk data => cases data <;> simp [truthy, String.ext_iff]

theorem sortedItems_inputOrder (H : Host) (items : List Item) :
    App.sortedItems H "inputOrder" items = items := by
  simp [App.sortedItems]

theorem sortedItems_unrecognised (H : Host) (key : String) (items : List Item)
    (h1 : key ≠ "description") (h2 : key ≠ "packedStatus") (h3 : key ≠ "alphabetical") :
    App.sortedItems H key items = items := by
  simp [App.sortedItems, h1, h2, h3]

/-! ## Adding an item -/

/-- C3: a submission whose trimmed description is empty leaves the state (and so the canonical
list) unchanged; any other submission yields the old canonical list followed by exactly one new
item with that description, that quantity and `packed = false`: the length grows by one and
every earlier position keeps its item. -/
theorem C3_add_appends_or_noop (H : Host) (s : AppState) (description : String)
    (quantity : Nat) (now : Int) :
    (trim description = "" → Form.handleSubmit H s description quantity now = s) ∧
    (trim description ≠ "" →
      (Form.handleSubmit H s description quantity now).items =
          s.items ++ [⟨now, description, quantity, false⟩] ∧
      (Form.handleSubmit H s description quantity now).items.length = s.items.length + 1 ∧
      ∀ i, i < s.items.length →
        (Form.handleSubmit H s description quantity now).items[i]? = s.items[i]?) := by
  constructor
  · intro h
    have ht : truthy (trim description) = false := (truthy_eq_false_iff _).2 h
    simp [Form.handleSubmit, ht]
  · intro h
    have ht : truthy (trim description) = true := by
      cases hb : truthy (trim description) with
      | true => rfl
      | false => exact absurd ((truthy_eq_false_iff _).1 hb) h
    have hitems : (Form.handleSubmit H s description quantity now).items =
        s.items ++ [⟨now, description, quantity, false⟩] := by
      simp [Form.handleSubmit, ht, App.handleAddItem]
    refine ⟨hitems, ?_, ?_⟩
    · rw [hitems]; simp
    · intro i hi
      rw [hitems, List.getElem?_append_left hi]

/-- C3 at Socks, Hat: a blank description changes nothing, "Towel" is appended. -/
theorem C3_add_appends_or_noop_witness :
    Form.handleSubmit asciiHost socksHat "   " 3 3000 = socksHat ∧
    (Form.handleSubmit asciiHost socksHat " Towel" 3 3000).items =
      [⟨1000, "Socks", 2, false⟩, ⟨2000, "Hat", 1, false⟩, ⟨3000, " Towel", 3, false⟩] :=
  ⟨(C3_add_appends_or_noop asciiHost socksHat "   " 3 3000).1 (by decide),
   ((C3_add_appends_or_noop asciiHost socksHat " Towel" 3 3000).2 (by decide)).1.trans
     (by decide)⟩

/-! ## Toggling and deleting -/

/-- The update applied by `handleTogglePacked` to one item. -/
theorem toggle_getElem? (items : List Item) (id : Int) (i : Nat) :
    (items.map (fun item =>
        if item.id = id then { item with packed := !item.packed } else item))[i]? =
      (items[i]?).map (fun item =>
        if item.id = id then { item with packed := !item.packed } else item) := by
  simp

/-- C4: `handleTogglePacked(id)` keeps the length of the canonical list; an item with that id
has, at its position, its `packed` flag negated and its id, description and quantity unchanged;
an item with another id is unchanged at its position; when no item has that id the list is
unchanged. -/
theorem C4_toggle_flips_only_that_item (H : Host) (s : AppState) (id : Int) :
    (App.handleTogglePacked H s id).items.length = s.items.length ∧
    (∀ (i : Nat) (item : Item), s.items[i]? = some item →
      (item.id = id → (App.handleTogglePacked H s id).items[i]? =
        some ⟨item.id, item.description, item.quantity, !item.packed⟩) ∧
      (item.id ≠ id → (App.handleTogglePacked H s id).items[i]? = some item)) ∧
    ((∀ item ∈ s.items, item.id ≠ id) → (App.handleTogglePacked H s id).items = s.items) := by
  have hitems : (App.handleTogglePacked H s id).items = s.items.map (fun item =>
      if item.id = id then { item with packed := !item.packed } else item) := rfl
  refine ⟨by rw [hitems]; simp, ?_, ?_⟩
  · intro i item hi
    rw [hitems, toggle_getElem?, hi]
    constructor
    · intro h; simp [h]
    · intro h; simp [h]
  · intro h
    rw [hitems]
    conv_rhs => rw [← List.map_id s.items]
    apply List.map_congr_left
    intro item hitem
    simp [h item hitem]

/-- Toggling Socks in Socks, Hat flips Socks only; toggling an absent id changes nothing. -/
theorem C4_toggle_flips_only_that_item_witness :
    (App.handleTogglePacked asciiHost socksHat 1000).items[0]? =
      some ⟨1000, "Socks", 2, true⟩ ∧
    (App.handleTogglePacked asciiHost socksHat 1000).items[1]? =
      some ⟨2000, "Hat", 1, false⟩ ∧
    (App.handleTogglePacked asciiHost socksHat 7).items = socksHat.items :=
  ⟨((C4_toggle_flips_only_that_item asciiHost socksHat 1000).2.1 0
      ⟨1000, "Socks", 2, false⟩ (by decide)).1 (by decide),
   ((C4_toggle_flips_only_that_item asciiHost socksHat 1000).2.1 1
      ⟨2000, "Hat", 1, false⟩ (by decide)).2 (by decide),
   (C4_toggle_flips_only_that_item asciiHost socksHat 7).2.2 (by decide)⟩

/-- C5: `handleDeleteItem(id)` yields the canonical list without the items of that id: the
result is a sublist of the old list (remaining items unchanged, in their relative order), it
holds every item of another id as often as before, no item of that id remains, and when no
item has that id the list is unchanged. -/
theorem C5_delete_removes_only_that_id (H : Host) (s : AppState) (id : Int) :
    (App.handleDeleteItem H s id).items.Sublist s.items ∧
    (∀ item : Item, item.id ≠ id →
      (App.handleDeleteItem H s id).items.count item = s.items.count item) ∧
    (∀ item ∈ (App.handleDeleteItem H s id).items, item.id ≠ id) ∧
    ((∀ item ∈ s.items, item.id ≠ id) → (App.handleDeleteItem H s id).items = s.items) := by
  have hitems : (App.handleDeleteItem H s id).items =
      s.items.filter (fun item => decide (item.id ≠ id)) := rfl
  refine ⟨by rw [hitems]; exact List.filter_sublist _, ?_, ?_, ?_⟩
  · intro item h
    rw [hitems, List.count_filter]
    simpa using h
  · intro item hitem
    rw [hitems] at hitem
    simpa using (List.mem_filter.1 hitem).2
  · intro h
    rw [hitems, List.filter_eq_self]
    intro item hitem
    simpa using h item hitem

/-- Deleting Socks from Socks, Hat leaves Hat; deleting an absent id changes nothing. -/
theorem C5_delete_removes_only_that_id_witness :
    (App.handleDeleteItem asciiHost socksHat 1000).items.count ⟨2000, "Hat", 1, false⟩ = 1 ∧
    (App.handleDeleteItem asciiHost socksHat 7).items = socksHat.items :=
  ⟨((C5_delete_removes_only_that_id asciiHost socksHat 1000).2.1
      ⟨2000, "Hat", 1, false⟩ (by decide)).trans (by decide),
   (C5_delete_removes_only_that_id asciiHost socksHat 7).2.2.2 (by decide)⟩

/-! ## Sorting never touches the canonical list -/

/-- C8: changing the sort key leaves the canonical list unchanged; after any key other than
`inputOrder`, changing the key to `inputOrder` displays the canonical list in insertion order;
a key that is none of `description`, `packedStatus`, `alphabetical` displays what `inputOrder`
displays. -/
theorem C8_input_order_restores_canonical (H : Host) (s : AppState) (k : String) :
    (App.handleSortChange H s k).items = s.items ∧
    (k ≠ "inputOrder" →
      (App.handleSortChange H (App.handleSortChange H s k) "inputOrder").items = s.items ∧
      (App.handleSortChange H (App.handleSortChange H s k) "inputOrder").filteredItems =
        s.items) ∧
    (k ≠ "description" → k ≠ "packedStatus" → k ≠ "alphabetical" →
      App.sortedItems H k s.items = App.sortedItems H "inputOrder" s.items ∧
      (k ≠ s.sortBy → (App.handleSortChange H s k).filteredItems = s.items)) := by
  refine ⟨handleSortChange_items H s k, ?_, ?_⟩
  · intro hk
    have hsort : (App.handleSortChange H s k).sortBy = k := handleSortChange_sortBy H s k
    have hne : ¬ ("inputOrder" = (App.handleSortChange H s k).sortBy) := by
      rw [hsort]; exact fun h => hk h.symm
    constructor
    · rw [handleSortChange_items, handleSortChange_items]
    · rw [handleSortChange_filteredItems H _ _ hne, sortedItems_inputOrder]
      exact handleSortChange_items H s k
  · intro h1 h2 h3
    refine ⟨by rw [sortedItems_unrecognised H k _ h1 h2 h3, sortedItems_inputOrder], ?_⟩
    intro hk
    rw [handleSortChange_filteredItems H s k hk]
    exact sortedItems_unrecognised H k _ h1 h2 h3

/-- Socks, Hat: sorted alphabetically the display is Hat, Socks; back on `inputOrder` it is
Socks, Hat again, and the canonical list never changed. -/
theorem C8_input_order_restores_canonical_witness :
    (App.handleSortChange asciiHost socksHat "alphabetical").filteredItems =
      [⟨2000, "Hat", 1, false⟩, ⟨1000, "Socks", 2, false⟩] ∧
    (App.handleSortChange asciiHost
        (App.handleSortChange asciiHost socksHat "alphabetical") "inputOrder").filteredItems =
      [⟨1000, "Socks", 2, false⟩, ⟨2000, "Hat", 1, false⟩] ∧
    App.sortedItems asciiHost "quantity" socksHat.items =
      App.sortedItems asciiHost "inputOrder" socksHat.items :=
  ⟨by decide,
   ((C8_input_order_restores_canonical asciiHost socksHat "alphabetical").2.1
      (by decide)).2.trans (by decide),
   ((C8_input_order_restores_canonical asciiHost socksHat "quantity").2.2
      (by decide) (by decide) (by decide)).1⟩

/-! ## Sorting by packed status -/

theorem insertSorted_perm {α : Type} (cmp : α → α → Int) (a : α) (l : List α) :
    (insertSorted cmp a l).Perm (a :: l) := by
  induction l with
  | nil => exact List.Perm.refl _
  | cons b l ih =>
    simp only [insertSorted]
    split
    · exact List.Perm.refl _
    · exact (List.Perm.cons b ih).trans (List.Perm.swap a b l)

/-- Sorting rearranges the list, whatever the comparator. -/
theorem sortWith_perm {α : Type} (cmp : α → α → Int) (l : List α) :
    (sortWith cmp l).Perm l := by
  induction l with
  | nil => exact List.Perm.refl _
  | cons a l ih =>
    simp only [sortWith]
    exact (insertSorted_perm cmp a _).trans (List.Perm.cons a ih)

theorem insertSorted_unpacked (a : Item) (l : List Item) (ha : a.packed = false) :
    insertSorted (fun a b => boolToNumber a.packed - boolToNumber b.packed) a l = a :: l := by
  cases l with
  | nil => rfl
  | cons b l =>
    have hle : boolToNumber a.packed - boolToNumber b.packed ≤ 0 := by
      cases hb : b.packed <;> simp [boolToNumber, ha]
    simp only [insertSorted]
    rw [if_pos hle]

theorem insertSorted_packed (a : Item) (ha : a.packed = true) (us ps : List Item)
    (hus : ∀ u ∈ us, u.packed = false) (hps : ∀ p ∈ ps, p.packed = true) :
    insertSorted (fun a b => boolToNumber a.packed - boolToNumber b.packed) a (us ++ ps) =
      us ++ a :: ps := by
  induction us with
  | nil =>
    cases ps with
    | nil => rfl
    | cons p ps =>
      have hp : p.packed = true := hps p (List.mem_cons_self _ _)
      have hle : boolToNumber a.packed - boolToNumber p.packed ≤ 0 := by
        simp [boolToNumber, ha, hp]
      simp only [List.nil_append, insertSorted]
      rw [if_pos hle]
  | cons u us ih =>
    have hu : u.packed = false := hus u (List.mem_cons_self _ _)
    have hgt : ¬ (boolToNumber a.packed - boolToNumber u.packed ≤ 0) := by
      simp [boolToNumber, ha, hu]
    have ih2 := ih (fun x hx => hus x (List.mem_cons_of_mem _ hx))
    simp only [List.cons_append, insertSorted]
    rw [if_neg hgt]
    exact congrArg (List.cons u) ih2

/-- The stable sort by `a.packed - b.packed` is the unpacked items followed by the packed
items, each group in its original order. -/
theorem sortWith_packed (l : List Item) :
    sortWith (fun a b => boolToNumber a.packed - boolToNumber b.packed) l =
      l.filter (fun item => !item.packed) ++ l.filter (fun item => item.packed) := by
  induction l with
  | nil => rfl
  | cons a l ih =>
    simp only [sortWith]
    rw [ih]
    cases ha : a.packed with
    | false =>
      rw [insertSorted_unpacked a _ ha]
      simp [List.filter_cons, ha]
    | true =>
      rw [insertSorted_packed a ha _ _ (by intro u hu; simpa using (List.mem_filter.1 hu).2)
        (by intro p hp; simpa using (List.mem_filter.1 hp).2)]
      simp [List.filter_cons, ha]

/-- C7: with sort key `packedStatus` the list displayed by the sorting effect is the unpacked
items in canonical order followed by the packed items in canonical order; so it is a
permutation of the canonical list, no packed item precedes an unpacked one, and the items of
equal packed value keep their relative canonical order. -/
theorem C7_packed_status_sort_stable (H : Host) (s : AppState)
    (h : s.sortBy = "packedStatus") :
    (App.sortingEffect H s).filteredItems =
      s.items.filter (fun item => !item.packed) ++ s.items.filter (fun item => item.packed) ∧
    (App.sortingEffect H s).filteredItems.Perm s.items ∧
    (App.sortingEffect H s).filteredItems.Pairwise
      (fun a b => a.packed = true → b.packed = true) ∧
    (App.sortingEffect H s).filteredItems.filter (fun item => !item.packed) =
      s.items.filter (fun item => !item.packed) ∧
    (App.sortingEffect H s).filteredItems.filter (fun item => item.packed) =
      s.items.filter (fun item => item.packed) ∧
    (App.sortingEffect H s).items = s.items := by
  have hshown : (App.sortingEffect H s).filteredItems =
      s.items.filter (fun item => !item.packed) ++
        s.items.filter (fun item => item.packed) := by
    rw [sortingEffect_filteredItems, h]
    have hd : ¬ ("packedStatus" = "description") := by decide
    unfold App.sortedItems
    rw [if_neg hd, if_pos rfl]
    exact sortWith_packed s.items
  refine ⟨hshown, ?_, ?_, ?_, ?_, rfl⟩
  · rw [hshown]
    have hperm := List.filter_append_perm (fun item : Item => item.packed) s.items
    exact List.perm_append_comm.trans hperm
  · rw [hshown, List.pairwise_append]
    refine ⟨?_, ?_, ?_⟩
    · refine List.Pairwise.imp_of_mem ?_ (List.pairwise_of_forall (R := fun _ _ => True)
        (fun _ _ => trivial))
      intro a b ha _ _ hpa
      have := (List.mem_filter.1 ha).2
      simp [hpa] at this
    · refine List.Pairwise.imp_of_mem ?_ (List.pairwise_of_forall (R := fun _ _ => True)
        (fun _ _ => trivial))
      intro a b _ hb _ _
      exact (List.mem_filter.1 hb).2
    · intro a _ b hb _
      exact (List.mem_filter.1 hb).2
  · rw [hshown, List.filter_append, List.filter_filter, List.filter_filter]
    have h1 : (s.items.filter fun a => !a.packed && a.packed) = [] := by
      rw [List.filter_eq_nil_iff]; intro a _; cases a.packed <;> simp
    rw [h1, List.append_nil]
    congr 1
    funext a
    cases a.packed <;> rfl
  · rw [hshown, List.filter_append, List.filter_filter, List.filter_filter]
    have h1 : (s.items.filter fun a => a.packed && !a.packed) = [] := by
      rw [List.filter_eq_nil_iff]; intro a _; cases a.packed <;> simp
    rw [h1, List.nil_append]
    congr 1
    funext a
    cases a.packed <;> rfl

/-- Socks (packed), Shirt, Hat sorted by packed status: Shirt, Hat, Socks. -/
theorem C7_packed_status_sort_stable_witness :
    (App.sortingEffect asciiHost (App.handleSortChange asciiHost threeItems
        "packedStatus")).filteredItems =
      [⟨2000, "Shirt", 1, false⟩, ⟨3000, "Hat", 1, false⟩, ⟨1000, "Socks", 2, true⟩] :=
  (C7_packed_status_sort_stable asciiHost
    (App.handleSortChange asciiHost threeItems "packedStatus") (by decide)).1.trans (by decide)

/-! ## Searching -/

/-- Function `includesChars s t` decides whether `t` is a contiguous part of `s`. -/
theorem includesChars_iff (s t : List Char) : includesChars s t = true ↔ t <:+: s := by
  induction s with
  | nil => simp [includesChars, List.infix_nil]
  | cons c cs ih =>
    simp only [includesChars, Bool.or_eq_true, ih, List.infix_cons_iff,
      List.isPrefixOf_iff_prefix]

theorem includes_empty (s : String) : includes s "" = true := by
  rw [includes, includesChars_iff]
  exact List.nil_infix

/-- C9: the list displayed after `handleSearch(term)` consists of exactly the canonical items
whose lower-cased description contains the term as a contiguous substring, in canonical order
(this holds for every sort key, `inputOrder` included); the empty term keeps all items; the
canonical list is unchanged; and `Stats` counts the displayed list. -/
theorem C9_search_keeps_matching_items (H : Host) (s : AppState) (term : String) :
    (App.handleSearch H s term).filteredItems =
      s.items.filter (fun item => decide (term.data <:+: (H.toLowerCase item.description).data)) ∧
    (App.handleSearch H s term).filteredItems.Sublist s.items ∧
    (∀ item, item ∈ (App.handleSearch H s term).filteredItems ↔
      item ∈ s.items ∧ term.data <:+: (H.toLowerCase item.description).data) ∧
    (term = "" → (App.handleSearch H s term).filteredItems = s.items) ∧
    (App.handleSearch H s term).items = s.items ∧
    totalItems (App.handleSearch H s term).filteredItems =
      (s.items.filter (fun item =>
        decide (term.data <:+: (H.toLowerCase item.description).data))).length := by
  have hfun : (fun item : Item => includes (H.toLowerCase item.description) term) =
      fun item => decide (term.data <:+: (H.toLowerCase item.description).data) := by
    funext item
    rw [Bool.eq_iff_iff, includes, includesChars_iff]
    simp
  have hshown : (App.handleSearch H s term).filteredItems =
      s.items.filter
        (fun item => decide (term.data <:+: (H.toLowerCase item.description).data)) := by
    show searchItems H s.items term = _
    rw [searchItems, hfun]
  refine ⟨hshown, ?_, ?_, ?_, rfl, ?_⟩
  · rw [hshown]; exact List.filter_sublist _
  · intro item
    rw [hshown, List.mem_filter]
    simp
  · intro hterm
    subst hterm
    show searchItems H s.items "" = _
    rw [searchItems, List.filter_eq_self]
    intro item _
    exact includes_empty _
  · rw [hshown]; rfl

/-- Socks, Hat searched for "ha": the display is Hat alone and `Stats` counts one item. -/
theorem C9_search_keeps_matching_items_witness :
    (App.handleSearch asciiHost socksHat "ha").filteredItems = [⟨2000, "Hat", 1, false⟩] ∧
    totalItems (App.handleSearch asciiHost socksHat "ha").filteredItems = 1 ∧
    (App.handleSearch asciiHost socksHat "").filteredItems = socksHat.items :=
  ⟨(C9_search_keeps_matching_items asciiHost socksHat "ha").1.trans (by decide),
   (C9_search_keeps_matching_items asciiHost socksHat "ha").2.2.2.2.2.trans (by decide),
   (C9_search_keeps_matching_items asciiHost socksHat "").2.2.2.1 rfl⟩

/-! ## Searching and sorting together -/

/-- C1, refuted: on Socks (packed), Shirt, Hat with term "s" and key `packedStatus`, neither
order of the two actions displays the sorted filtered list (Shirt, Socks): search then sort
displays all three items, sort then search displays Socks, Shirt unsorted. -/
theorem C1_composition_counterexample :
    (App.handleSortChange asciiHost (App.handleSearch asciiHost threeItems "s")
        "packedStatus").filteredItems ≠
      App.sortedItems asciiHost "packedStatus" (searchItems asciiHost threeItems.items "s") ∧
    (App.handleSearch asciiHost (App.handleSortChange asciiHost threeItems "packedStatus")
        "s").filteredItems ≠
      App.sortedItems asciiHost "packedStatus" (searchItems asciiHost threeItems.items "s") := by
  decide

/-- C1, amended: the displayed list is set by whichever of the two actions ran last. When the
sorting effect runs after `handleSearch(term)`, the display is the whole canonical list sorted
by the key (the search is not applied); when `handleSearch(term)` runs after the sorting
effect, the display is the filtered canonical list in canonical order (the key is not applied).
The first equals sort(filter(items, term), key) for the empty term, the second for the key
`inputOrder`. -/
theorem C1_last_action_sets_display (H : Host) (s : AppState) (term key : String) :
    (App.sortingEffect H { App.handleSearch H s term with sortBy := key }).filteredItems =
      App.sortedItems H key s.items ∧
    (key ≠ s.sortBy →
      (App.handleSortChange H (App.handleSearch H s term) key).filteredItems =
        App.sortedItems H key s.items) ∧
    (App.handleSearch H (App.handleSortChange H s key) term).filteredItems =
      searchItems H s.items term ∧
    App.sortedItems H key (searchItems H s.items "") = App.sortedItems H key s.items ∧
    App.sortedItems H "inputOrder" (searchItems H s.items term) =
      searchItems H s.items term := by
  refine ⟨rfl, ?_, ?_, ?_, sortedItems_inputOrder H _⟩
  · intro hk
    exact handleSortChange_filteredItems H (App.handleSearch H s term) key hk
  · show searchItems H (App.handleSortChange H s key).items term = _
    rw [handleSortChange_items]
  · have hall : searchItems H s.items "" = s.items := by
      rw [searchItems, List.filter_eq_self]
      intro item _
      exact includes_empty _
    rw [hall]

/-- Socks (packed), Shirt, Hat: after search "s" then key `packedStatus` the display is the
whole list sorted. -/
theorem C1_last_action_sets_display_witness :
    (App.handleSortChange asciiHost (App.handleSearch asciiHost threeItems "s")
        "packedStatus").filteredItems =
      [⟨2000, "Shirt", 1, false⟩, ⟨3000, "Hat", 1, false⟩, ⟨1000, "Socks", 2, true⟩] :=
  ((C1_last_action_sets_display asciiHost threeItems "s" "packedStatus").2.1
    (by decide)).trans (by decide)

/-! ## Identifiers -/

theorem toggle_map_id (items : List Item) (id : Int) :
    (items.map (fun item =>
        if item.id = id then { item with packed := !item.packed } else item)).map Item.id =
      items.map Item.id := by
  rw [List.map_map]
  apply List.map_congr_left
  intro item _
  by_cases h : item.id = id <;> simp [h]

/-- The ids of the canonical list are, in order, clock values of the submissions that added
an item. -/
theorem run_ids_sublist (H : Host) (events : List Event) :
    ∀ (s : AppState) (pre : List Int), (s.items.map Item.id).Sublist pre →
      ((run H s events).items.map Item.id).Sublist (pre ++ addClocks events) := by
  induction events with
  | nil =>
    intro s pre h
    simpa [run, addClocks] using h
  | cons e es ih =>
    intro s pre h
    have hrun : run H s (e :: es) = run H (step H s e) es := rfl
    rw [hrun]
    cases e with
    | submit description quantity now =>
      cases ht : truthy (trim description) with
      | false =>
        have hs : step H s (.submit description quantity now) = s := by
          simp [step, Form.handleSubmit, ht]
        have hc : addClocks (.submit description quantity now :: es) = addClocks es := by
          simp [addClocks, ht]
        rw [hs, hc]
        exact ih s pre h
      | true =>
        have hs : (step H s (.submit description quantity now)).items =
            s.items ++ [⟨now, description, quantity, false⟩] := by
          simp [step, Form.handleSubmit, ht, App.handleAddItem]
        have hc : addClocks (.submit description quantity now :: es) =
            now :: addClocks es := by
          simp [addClocks, ht]
        have hsub : ((step H s (.submit description quantity now)).items.map Item.id).Sublist
            (pre ++ [now]) := by
          rw [hs, List.map_append]
          exact h.append (List.Sublist.refl _)
        have := ih _ _ hsub
        rw [hc]
        simpa [List.append_assoc] using this
    | togglePacked id =>
      have hs : (step H s (.togglePacked id)).items.map Item.id = s.items.map Item.id :=
        toggle_map_id s.items id
      exact ih _ pre (hs ▸ h)
    | deleteItem id =>
      have hs : ((step H s (.deleteItem id)).items.map Item.id).Sublist
          (s.items.map Item.id) :=
        List.Sublist.map _ (List.filter_sublist _)
      exact ih _ pre (hs.trans h)
    | clearAll =>
      exact ih _ pre (List.nil_sublist _)
    | search value =>
      exact ih _ pre h
    | sortChange value =>
      have hs : (step H s (.sortChange value)).items = s.items :=
        handleSortChange_items H s value
      exact ih _ pre (hs ▸ h)

/-- Ids stay pairwise distinct along every sequence of actions whose adding submissions read
a clock value that is not an id in the list at that moment. -/
theorem ids_nodup_of_freshSubmits (H : Host) (events : List Event) :
    ∀ s : AppState, freshSubmits H s events = true → (s.items.map Item.id).Nodup →
      ((run H s events).items.map Item.id).Nodup := by
  induction events with
  | nil =>
    intro s _ h
    exact h
  | cons e es ih =>
    intro s hfresh h
    have hrun : run H s (e :: es) = run H (step H s e) es := rfl
    rw [hrun]
    simp only [freshSubmits, Bool.and_eq_true] at hfresh
    obtain ⟨hnow, hrest⟩ := hfresh
    apply ih _ hrest
    cases e with
    | submit description quantity now =>
      cases ht : truthy (trim description) with
      | false =>
        have hs : step H s (.submit description quantity now) = s := by
          simp [step, Form.handleSubmit, ht]
        rw [hs]
        exact h
      | true =>
        have hs : (step H s (.submit description quantity now)).items =
            s.items ++ [⟨now, description, quantity, false⟩] := by
          simp [step, Form.handleSubmit, ht, App.handleAddItem]
        have hnotin : now ∉ s.items.map Item.id := by
          simpa [ht] using hnow
        rw [hs, List.map_append, List.nodup_append]
        refine ⟨h, List.nodup_singleton _, ?_⟩
        intro a ha hb
        have hab : a = now := by simpa using hb
        exact hnotin (hab ▸ ha)
    | togglePacked id =>
      have hs : (step H s (.togglePacked id)).items.map Item.id = s.items.map Item.id :=
        toggle_map_id s.items id
      rw [hs]
      exact h
    | deleteItem id =>
      have hs : ((step H s (.deleteItem id)).items.map Item.id).Sublist
          (s.items.map Item.id) :=
        List.Sublist.map _ (List.filter_sublist _)
      exact h.sublist hs
    | clearAll =>
      exact List.nodup_nil
    | search value =>
      exact h
    | sortChange value =>
      have hs : (step H s (.sortChange value)).items = s.items :=
        handleSortChange_items H s value
      rw [hs]
      exact h

/-- C2 at two submissions that read the same clock value 1000: Socks and Hat get the same
id, so the ids of the canonical list are not pairwise distinct; toggling that id then flips
both items and deleting it removes both. -/
theorem C2_same_clock_duplicate_ids :
    sameClock.items = [⟨1000, "Socks", 2, false⟩, ⟨1000, "Hat", 1, false⟩] ∧
    ¬ (sameClock.items.map Item.id).Nodup ∧
    (App.handleTogglePacked asciiHost sameClock 1000).items =
      [⟨1000, "Socks", 2, true⟩, ⟨1000, "Hat", 1, true⟩] ∧
    (App.handleDeleteItem asciiHost sameClock 1000).items = [] := by
  decide

/-! ## Binary64 rounding -/

theorem bitLengthAux_zero (fuel : Nat) : bitLengthAux fuel 0 = 0 := by
  cases fuel <;> simp [bitLengthAux]

theorem bitLengthAux_spec (fuel : Nat) :
    ∀ n, n ≤ fuel → n < 2 ^ bitLengthAux fuel n ∧
      (0 < n → 1 ≤ bitLengthAux fuel n ∧ 2 ^ (bitLengthAux fuel n - 1) ≤ n) := by
  induction fuel with
  | zero =>
    intro n hn
    have h0 : n = 0 := by omega
    subst h0
    simp [bitLengthAux]
  | succ fuel ih =>
    intro n hn
    by_cases h0 : n = 0
    · subst h0
      simp [bitLengthAux]
    · have hstep : bitLengthAux (fuel + 1) n = bitLengthAux fuel (n / 2) + 1 := by
        simp [bitLengthAux, h0]
      have hhalf : n / 2 ≤ fuel := by omega
      obtain ⟨hlt, hge⟩ := ih (n / 2) hhalf
      rw [hstep]
      constructor
      · rw [pow_succ]
        omega
      · intro _
        refine ⟨by omega, ?_⟩
        rw [Nat.add_sub_cancel]
        by_cases hz : n / 2 = 0
        · rw [hz, bitLengthAux_zero]
          simp
          omega
        · obtain ⟨h1, hpow⟩ := hge (Nat.pos_of_ne_zero hz)
          have hsplit : bitLengthAux fuel (n / 2) = (bitLengthAux fuel (n / 2) - 1) + 1 := by
            omega
          rw [hsplit, pow_succ]
          omega

theorem lt_two_pow_bitLength (n : Nat) : n < 2 ^ bitLength n :=
  (bitLengthAux_spec n n (Nat.le_refl n)).1

theorem two_pow_bitLength_le (n : Nat) (h : 0 < n) :
    1 ≤ bitLength n ∧ 2 ^ (bitLength n - 1) ≤ n :=
  (bitLengthAux_spec n n (Nat.le_refl n)).2 h

/-- The binade exponent is a lower bound: `2 ^ E ≤ n / d`. -/
theorem binade_le (n d : Nat) (hn : 0 < n) :
    d * 2 ^ (binade n d).toNat ≤ n * 2 ^ (-(binade n d)).toNat := by
  unfold binade
  simp only
  split
  · next h => exact h
  · obtain ⟨h1, hpow⟩ := two_pow_bitLength_le n hn
    have hd := lt_two_pow_bitLength d
    have hexp : ((bitLength n : Int) - (bitLength d : Int) - 1).toNat + bitLength d =
        (bitLength n - 1) + (-((bitLength n : Int) - (bitLength d : Int) - 1)).toNat := by
      omega
    have key : d * 2 ^ ((bitLength n : Int) - (bitLength d : Int) - 1).toNat * 2 ^ bitLength d ≤
        n * 2 ^ (-((bitLength n : Int) - (bitLength d : Int) - 1)).toNat * 2 ^ bitLength d := by
      calc d * 2 ^ ((bitLength n : Int) - (bitLength d : Int) - 1).toNat * 2 ^ bitLength d
          = d * 2 ^ (((bitLength n : Int) - (bitLength d : Int) - 1).toNat + bitLength d) := by
            rw [pow_add, Nat.mul_assoc]
        _ = d * (2 ^ (bitLength n - 1) *
              2 ^ (-((bitLength n : Int) - (bitLength d : Int) - 1)).toNat) := by
            rw [hexp, pow_add]
        _ ≤ 2 ^ bitLength d * (n *
              2 ^ (-((bitLength n : Int) - (bitLength d : Int) - 1)).toNat) :=
            Nat.mul_le_mul (Nat.le_of_lt hd) (Nat.mul_le_mul_right _ hpow)
        _ = n * 2 ^ (-((bitLength n : Int) - (bitLength d : Int) - 1)).toNat *
              2 ^ bitLength d := by
            rw [Nat.mul_comm]
    exact Nat.le_of_mul_le_mul_right key (Nat.pow_pos (by decide))

/-- Rounding to the nearest integer overshoots by at most one half. -/
theorem roundHalfEven_le (n d : Nat) (hd : 0 < d) :
    2 * (roundHalfEven n d * d) ≤ 2 * n + d := by
  have hdiv := Nat.div_add_mod n d
  have hmod := Nat.mod_lt n hd
  have hq : d * (n / d) = (n / d) * d := Nat.mul_comm _ _
  unfold roundHalfEven
  simp only
  split
  · omega
  · split
    · rw [Nat.add_mul]; omega
    · split
      · omega
      · rw [Nat.add_mul]; omega

theorem round_bound (x n d : Nat) (hr : 2 * x ≤ 2 * n + d) (h52 : 2 ^ 52 * d ≤ n) :
    x * 2 ^ 53 ≤ n * (2 ^ 53 + 1) := by
  norm_num at *
  omega

theorem toDouble_den_pos (n d : Nat) : 0 < (toDouble n d).den := by
  unfold toDouble
  split
  · decide
  · exact Nat.pow_pos (by decide)

/-- Rounding to binary64 raises a positive quotient by at most the factor `1 + 2 ^ (-53)`. -/
theorem toDouble_le (n d : Nat) (hn : 0 < n) (hd : 0 < d) :
    (toDouble n d).num * d * 2 ^ 53 ≤ (toDouble n d).den * n * (2 ^ 53 + 1) := by
  have hb := binade_le n d hn
  have hn0 : ¬ n = 0 := by omega
  unfold toDouble
  rw [if_neg hn0]
  simp only
  generalize binade n d = E at hb ⊢
  have hexp : E.toNat + (-(E - 52)).toNat = 52 + (E - 52).toNat + (-E).toNat := by omega
  have h52 : 2 ^ 52 * (d * 2 ^ (E - 52).toNat) ≤ n * 2 ^ (-(E - 52)).toNat := by
    have key : 2 ^ 52 * (d * 2 ^ (E - 52).toNat) * 2 ^ (-E).toNat ≤
        n * 2 ^ (-(E - 52)).toNat * 2 ^ (-E).toNat := by
      calc 2 ^ 52 * (d * 2 ^ (E - 52).toNat) * 2 ^ (-E).toNat
          = d * 2 ^ (52 + (E - 52).toNat + (-E).toNat) := by
            rw [pow_add, pow_add]; ring
        _ = d * 2 ^ E.toNat * 2 ^ (-(E - 52)).toNat := by
            rw [← hexp, pow_add]; ring
        _ ≤ n * 2 ^ (-E).toNat * 2 ^ (-(E - 52)).toNat := Nat.mul_le_mul_right _ hb
        _ = n * 2 ^ (-(E - 52)).toNat * 2 ^ (-E).toNat := by ring
    exact Nat.le_of_mul_le_mul_right key (Nat.pow_pos (by decide))
  have hD : 0 < d * 2 ^ (E - 52).toNat := Nat.mul_pos hd (Nat.pow_pos (by decide))
  have hr := roundHalfEven_le (n * 2 ^ (-(E - 52)).toNat) (d * 2 ^ (E - 52).toNat) hD
  have hx := round_bound _ _ _ hr h52
  calc roundHalfEven (n * 2 ^ (-(E - 52)).toNat) (d * 2 ^ (E - 52).toNat) *
        2 ^ (E - 52).toNat * d * 2 ^ 53
      = roundHalfEven (n * 2 ^ (-(E - 52)).toNat) (d * 2 ^ (E - 52).toNat) *
          (d * 2 ^ (E - 52).toNat) * 2 ^ 53 := by ring
    _ ≤ n * 2 ^ (-(E - 52)).toNat * (2 ^ 53 + 1) := hx
    _ = 2 ^ (-(E - 52)).toNat * n * (2 ^ 53 + 1) := by ring

/-! ## The percentage of `Stats` -/

theorem roundHalfEven_mul (t k : Nat) (ht : 0 < t) : roundHalfEven (t * k) t = k := by
  unfold roundHalfEven
  simp only [Nat.mul_div_cancel_left k ht, Nat.mul_mod_right, Nat.mul_zero]
  rw [if_pos ht]

theorem toDouble_self (t : Nat) (ht : 0 < t) : toDouble t t = ⟨2 ^ 52, 2 ^ 52⟩ := by
  have ht0 : ¬ t = 0 := by omega
  have hb : binade t t = 0 := by
    unfold binade
    simp
  unfold toDouble
  rw [if_neg ht0, hb]
  have h1 : (-((0 : Int) - 52)).toNat = 52 := by decide
  have h2 : ((0 : Int) - 52).toNat = 0 := by decide
  simp only [h1, h2, pow_zero, Nat.mul_one]
  rw [roundHalfEven_mul t _ ht]

/-- When every item is packed the percentage is exactly 100. -/
theorem percentageOf_self (t : Nat) (ht : 0 < t) : percentageOf t t = 100 := by
  have ht0 : ¬ t = 0 := by omega
  unfold percentageOf Double.ofDiv Double.mulNat
  rw [if_neg ht0, toDouble_self t ht]
  decide

theorem Math.round_eq_hundred (y : Double) (hden : 0 < y.den) (h : Math.round y = 100) :
    199 * y.den ≤ 2 * y.num := by
  unfold Math.round at h
  have h2 : 100 ≤ (2 * y.num + y.den) / (2 * y.den) := by omega
  rw [Nat.le_div_iff_mul_le (by omega)] at h2
  omega

/-- A percentage of 100 needs at least 99.5 percent of the items packed. -/
theorem percentageOf_eq_hundred (p t : Nat) (hp : p < 2 ^ 32) (h : percentageOf p t = 100) :
    0 < t ∧ 199 * t ≤ 200 * p := by
  unfold percentageOf Double.ofDiv Double.mulNat at h
  by_cases ht0 : t = 0
  · rw [if_pos ht0] at h
    exact absurd h (by decide)
  rw [if_neg ht0] at h
  have ht : 0 < t := Nat.pos_of_ne_zero ht0
  refine ⟨ht, ?_⟩
  by_cases hp0 : p = 0
  · subst hp0
    have hz : toDouble 0 t = ⟨0, 1⟩ := by simp [toDouble]
    rw [hz] at h
    exact absurd h (by decide)
  have hppos : 0 < p := Nat.pos_of_ne_zero hp0
  have hxden := toDouble_den_pos p t
  have hx := toDouble_le p t hppos ht
  generalize toDouble p t = x at h hx hxden
  by_cases hn0 : x.num * 100 = 0
  · rw [hn0] at h
    have hz : toDouble 0 x.den = ⟨0, 1⟩ := by simp [toDouble]
    rw [hz] at h
    exact absurd h (by decide)
  have hyden := toDouble_den_pos (x.num * 100) x.den
  have hy := toDouble_le (x.num * 100) x.den (Nat.pos_of_ne_zero hn0) hxden
  have hround := Math.round_eq_hundred _ hyden h
  generalize toDouble (x.num * 100) x.den = y at hy hyden hround
  -- 199 * x.den * 2 ^ 53 ≤ 200 * x.num * (2 ^ 53 + 1)
  have h1 : y.den * (199 * x.den * 2 ^ 53) ≤ y.den * (200 * x.num * (2 ^ 53 + 1)) := by
    calc y.den * (199 * x.den * 2 ^ 53) = (199 * y.den) * (x.den * 2 ^ 53) := by ring
      _ ≤ (2 * y.num) * (x.den * 2 ^ 53) := Nat.mul_le_mul_right _ hround
      _ = 2 * (y.num * x.den * 2 ^ 53) := by ring
      _ ≤ 2 * (y.den * (x.num * 100) * (2 ^ 53 + 1)) := Nat.mul_le_mul_left _ hy
      _ = y.den * (200 * x.num * (2 ^ 53 + 1)) := by ring
  have h2 : 199 * x.den * 2 ^ 53 ≤ 200 * x.num * (2 ^ 53 + 1) :=
    Nat.le_of_mul_le_mul_left h1 hyden
  have h3 : x.den * (199 * t * 2 ^ 106) ≤ x.den * (200 * p * ((2 ^ 53 + 1) * (2 ^ 53 + 1))) := by
    calc x.den * (199 * t * 2 ^ 106) = (199 * x.den * 2 ^ 53) * (t * 2 ^ 53) := by ring
      _ ≤ (200 * x.num * (2 ^ 53 + 1)) * (t * 2 ^ 53) := Nat.mul_le_mul_right _ h2
      _ = 200 * (2 ^ 53 + 1) * (x.num * t * 2 ^ 53) := by ring
      _ ≤ 200 * (2 ^ 53 + 1) * (x.den * p * (2 ^ 53 + 1)) := Nat.mul_le_mul_left _ hx
      _ = x.den * (200 * p * ((2 ^ 53 + 1) * (2 ^ 53 + 1))) := by ring
  have h4 := Nat.le_of_mul_le_mul_left h3 hxden
  norm_num at h4 hp
  omega

/-- The percentage never exceeds 100. -/
theorem percentageOf_le (p t : Nat) (hpt : p ≤ t) : percentageOf p t ≤ 100 := by
  unfold percentageOf Double.ofDiv Double.mulNat
  by_cases ht0 : t = 0
  · rw [if_pos ht0]; decide
  rw [if_neg ht0]
  have ht : 0 < t := Nat.pos_of_ne_zero ht0
  by_cases hp0 : p = 0
  · subst hp0
    have hz : toDouble 0 t = ⟨0, 1⟩ := by simp [toDouble]
    rw [hz]
    decide
  have hxden := toDouble_den_pos p t
  have hx := toDouble_le p t (Nat.pos_of_ne_zero hp0) ht
  generalize toDouble p t = x at hx hxden
  by_cases hn0 : x.num * 100 = 0
  · rw [hn0]
    have hz : toDouble 0 x.den = ⟨0, 1⟩ := by simp [toDouble]
    rw [hz]
    decide
  have hyden := toDouble_den_pos (x.num * 100) x.den
  have hy := toDouble_le (x.num * 100) x.den (Nat.pos_of_ne_zero hn0) hxden
  generalize toDouble (x.num * 100) x.den = y at hy hyden
  -- x.num * 2 ^ 53 ≤ x.den * (2 ^ 53 + 1)
  have h1 : t * (x.num * 2 ^ 53) ≤ t * (x.den * (2 ^ 53 + 1)) := by
    calc t * (x.num * 2 ^ 53) = x.num * t * 2 ^ 53 := by ring
      _ ≤ x.den * p * (2 ^ 53 + 1) := hx
      _ ≤ x.den * t * (2 ^ 53 + 1) :=
        Nat.mul_le_mul_right _ (Nat.mul_le_mul_left _ hpt)
      _ = t * (x.den * (2 ^ 53 + 1)) := by ring
  have h2 := Nat.le_of_mul_le_mul_left h1 ht
  have h3 : x.den * (y.num * 2 ^ 106) ≤
      x.den * (100 * y.den * ((2 ^ 53 + 1) * (2 ^ 53 + 1))) := by
    calc x.den * (y.num * 2 ^ 106) = (y.num * x.den * 2 ^ 53) * 2 ^ 53 := by ring
      _ ≤ (y.den * (x.num * 100) * (2 ^ 53 + 1)) * 2 ^ 53 := Nat.mul_le_mul_right _ hy
      _ = 100 * y.den * (2 ^ 53 + 1) * (x.num * 2 ^ 53) := by ring
      _ ≤ 100 * y.den * (2 ^ 53 + 1) * (x.den * (2 ^ 53 + 1)) := Nat.mul_le_mul_left _ h2
      _ = x.den * (100 * y.den * ((2 ^ 53 + 1) * (2 ^ 53 + 1))) := by ring
  have h4 := Nat.le_of_mul_le_mul_left h3 hxden
  unfold Math.round
  have hlt : (2 * y.num + y.den) / (2 * y.den) < 101 := by
    rw [Nat.div_lt_iff_lt_mul (by omega)]
    norm_num at h4
    omega
  omega

/-! ## The text of `Stats` -/

theorem counting_text_ne (a b c : String) :
    "You have " ++ a ++ " items in the list. You already packed " ++ b ++ " (" ++ c ++ "%)." ≠
      "You got everything!" := by
  intro h
  have hdata := congrArg String.data h
  simp only [String.data_append] at hdata
  have h4 := congrArg (fun l => l.get? 4) hdata
  simp at h4

theorem Stats_eq_iff (items : List Item) :
    Stats items = "You got everything!" ↔ percentagePacked items = 100 := by
  unfold Stats
  constructor
  · intro h
    by_contra hne
    rw [if_neg hne] at h
    exact counting_text_ne _ _ _ h
  · intro h
    rw [if_pos h]

theorem packedItems_le (items : List Item) : packedItems items ≤ totalItems items :=
  List.length_filter_le _ _

theorem packedItems_eq_total_iff (items : List Item) :
    packedItems items = totalItems items ↔ ∀ item ∈ items, item.packed = true := by
  unfold packedItems totalItems
  constructor
  · intro h
    have heq := (List.filter_sublist items).eq_of_length h
    intro item hitem
    exact List.filter_eq_self.1 heq item hitem
  · intro h
    rw [List.filter_eq_self.2 h]

/-- C6 at forty items of which twenty-three are packed: `Stats` counts 40 and 23 and shows
57 percent, while half-up rounding of the exact ratio 57.5 gives 58 (as would multiplying by
100 before dividing). -/
theorem C6_percentage_23_of_40 :
    totalItems fortyItems.filteredItems = 40 ∧
    packedItems fortyItems.filteredItems = 23 ∧
    percentagePacked fortyItems.filteredItems = 57 ∧
    exactPercentage 23 40 = 58 ∧
    Math.round (Double.ofDiv (23 * 100) 40) = 58 ∧
    Stats fortyItems.filteredItems =
      "You have 40 items in the list. You already packed 23 (57%)." := by
  decide

set_option maxRecDepth 100000

theorem twoHundredItems_filteredItems : twoHundredItems.filteredItems = twoHundredList := by
  decide

/-- C10, refuted: with 199 of 200 items packed `Stats` shows the completion message although
one item is unpacked. -/
theorem C10_completion_counterexample :
    Stats twoHundredItems.filteredItems = "You got everything!" ∧
    ¬ (∀ item ∈ twoHundredItems.filteredItems, item.packed = true) := by
  rw [twoHundredItems_filteredItems]
  decide

/-- C10, amended: `Stats` shows the completion message exactly when the rounded percentage is
100. It does so whenever the list is non-empty and every item is packed; for the empty list it
shows the counting message; a list within the array length limit that gets the completion
message is non-empty and has at least 99.5 percent of its items packed; so for a list of fewer
than 200 items the completion message appears if and only if the list is non-empty and every
item is packed. -/
theorem C10_completion_message (items : List Item) :
    (Stats items = "You got everything!" ↔ percentagePacked items = 100) ∧
    (items ≠ [] → (∀ item ∈ items, item.packed = true) →
      Stats items = "You got everything!") ∧
    (items = [] →
      Stats items = "You have 0 items in the list. You already packed 0 (0%).") ∧
    (items.length < 2 ^ 32 → Stats items = "You got everything!" →
      items ≠ [] ∧ 199 * totalItems items ≤ 200 * packedItems items) ∧
    (items.length < 200 →
      (Stats items = "You got everything!" ↔
        items ≠ [] ∧ ∀ item ∈ items, item.packed = true)) := by
  have hall : items ≠ [] → (∀ item ∈ items, item.packed = true) →
      Stats items = "You got everything!" := by
    intro hne hp
    rw [Stats_eq_iff]
    unfold percentagePacked
    rw [(packedItems_eq_total_iff items).2 hp]
    exact percentageOf_self _ (List.length_pos.2 hne)
  have hneed : items.length < 2 ^ 32 → Stats items = "You got everything!" →
      items ≠ [] ∧ 199 * totalItems items ≤ 200 * packedItems items := by
    intro hlen h
    rw [Stats_eq_iff] at h
    have hle := packedItems_le items
    have hp : packedItems items < 2 ^ 32 := Nat.lt_of_le_of_lt hle hlen
    obtain ⟨hpos, hbound⟩ := percentageOf_eq_hundred _ _ hp h
    exact ⟨List.length_pos.1 hpos, hbound⟩
  refine ⟨Stats_eq_iff items, hall, ?_, hneed, ?_⟩
  · intro h
    subst h
    decide
  · intro hlen
    constructor
    · intro h
      obtain ⟨hne, hbound⟩ := hneed (Nat.lt_trans hlen (by decide)) h
      refine ⟨hne, (packedItems_eq_total_iff items).1 ?_⟩
      have hle := packedItems_le items
      have ht : totalItems items < 200 := hlen
      omega
    · intro h
      exact hall h.1 h.2

/-- One packed item: the completion message; Socks, Hat unpacked: the counting message is not
the completion message. -/
theorem C10_completion_message_witness :
    Stats [⟨1000, "Socks", 2, true⟩] = "You got everything!" ∧
    (Stats socksHat.filteredItems = "You got everything!" ↔
      socksHat.filteredItems ≠ [] ∧ ∀ item ∈ socksHat.filteredItems, item.packed = true) :=
  ⟨(C10_completion_message [⟨1000, "Socks", 2, true⟩]).2.1 (by decide) (by decide),
   (C10_completion_message socksHat.filteredItems).2.2.2.2 (by decide)⟩

end TravelList
